import Mathlib

/-!
Verification development for the post-composition engine of the
`linkedin-zen-post` repository: the response normalizer
(`src/components/TextEditor.tsx`), the per-post-type validators and payload
builders of the LinkedIn composition pages (`src/pages/Index.tsx`, two
variants) and of the Instagram form (`src/components/InstagramForm.tsx`),
and their submission flows.

Strings are modelled as `List Char` (wrapped back into `String` at the
interface).  The JavaScript regular expressions used by `normalizeResponse`
are hand-compiled into explicit greedy matchers; every pattern in the source
alternates disjoint character classes, so greedy matching without
backtracking is exact.  The JS `\s` class is modelled by its ASCII members
(space, tab, newline, carriage return, vertical tab, form feed) — the only
whitespace occurring in the data handled here.
-/

set_option autoImplicit false

namespace LinkedinZen

/-- ASCII members of the JS regex `\s` class / `String.prototype.trim`
whitespace. -/
def isWs (c : Char) : Bool :=
  c = ' ' || c = '\t' || c = '\n' || c = '\r' || c = '\x0b' || c = '\x0c'

/-- The JS regex `\d` class. -/
def isDigitCh (c : Char) : Bool :=
  '0' ≤ c && c ≤ '9'

/-- The apostrophe character (U+0027). -/
def apos : Char := Char.ofNat 39

/-- The backquote character (U+0060). -/
def backquote : Char := Char.ofNat 96

/-- Membership in the quote character class of the stripping regex in
`normalizeResponse` (double quote, apostrophe, backquote). -/
def isQuoteCh (c : Char) : Bool :=
  c = '"' || c = apos || c = backquote

/-- Match one literal character, returning the rest of the input. -/
def lit (c : Char) : List Char → Option (List Char)
  | d :: rest => if d = c then some rest else none
  | [] => none

/-- Case-insensitive character match against a lowercase pattern character
(models the `i` regex flag on the ASCII letters used by the source). -/
def matchesCI (p c : Char) : Bool :=
  c = p || (('a' ≤ p && p ≤ 'z') && c.toNat + 32 = p.toNat)

/-- Match a literal word case-insensitively (pattern given in lowercase). -/
def litCI : List Char → List Char → Option (List Char)
  | [], l => some l
  | p :: ps, c :: rest => if matchesCI p c then litCI ps rest else none
  | _ :: _, [] => none

/-- Greedy `\s*`. -/
def dropWs (l : List Char) : List Char := l.dropWhile isWs

/-- Greedy `\s+`. -/
def plusWs : List Char → Option (List Char)
  | c :: rest => if isWs c then some (dropWs rest) else none
  | [] => none

/-- Greedy `\d+`. -/
def plusDigits : List Char → Option (List Char)
  | c :: rest => if isDigitCh c then some (rest.dropWhile isDigitCh) else none
  | [] => none

/-- Greedy `c?` for a literal character. -/
def optChar (c : Char) (l : List Char) : List Char :=
  match l with
  | d :: rest => if d = c then rest else l
  | [] => l

/-- Greedy case-insensitive `p?` for a lowercase pattern character. -/
def optCI (p : Char) (l : List Char) : List Char :=
  match l with
  | d :: rest => if matchesCI p d then rest else l
  | [] => l

/-- Greedy `.*` of a JS regex without the `s` flag: consume up to (not
including) the next line terminator. -/
def dropLine (l : List Char) : List Char :=
  l.dropWhile (fun c => !(c = '\n' || c = '\r'))

/-- The word "option" as a lowercase pattern. -/
def optionWord : List Char := ['o', 'p', 't', 'i', 'o', 'n']

/-- Head match for `/\*\*?Option\s*\d+\s*:\*\*?/i`
(`TextEditor.tsx:26`).  Every greedy step is followed by a disjoint
character class, so no backtracking is needed. -/
def matchOptBold (l : List Char) : Option (List Char) := do
  let l ← lit '*' l
  let l := optChar '*' l
  let l ← litCI optionWord l
  let l := dropWs l
  let l ← plusDigits l
  let l := dropWs l
  let l ← lit ':' l
  let l ← lit '*' l
  pure (optChar '*' l)

/-- Head match for `/Option\s*\d+\s*:/i` (`TextEditor.tsx:27`). -/
def matchOptPlain (l : List Char) : Option (List Char) := do
  let l ← litCI optionWord l
  let l := dropWs l
  let l ← plusDigits l
  let l := dropWs l
  lit ':' l

/-- Head match for the alternative `here\s+(?:it|is)` of the preamble
regex (`TextEditor.tsx:30`). -/
def matchHere (l : List Char) : Option (List Char) := do
  let l ← litCI ['h', 'e', 'r', 'e'] l
  let l ← plusWs l
  litCI ['i', 't'] l <|> litCI ['i', 's'] l

/-- Head match for the alternative `options?:` of the preamble regex. -/
def matchOptionsColon (l : List Char) : Option (List Char) := do
  let l ← litCI optionWord l
  lit ':' (optCI 's' l)

/-- Head match for the anchored preamble regex
`/^(?:here\s+(?:it|is)|choose.*|selected.*|response:?|output:?|final:?|options?:)\s*/i`
(`TextEditor.tsx:29-32`), without the trailing `\s*` (taken by
`stripPreamble`).  Alternatives are tried in source order; since the overall
pattern ends in `\s*`, the first alternative matching at the start wins,
exactly as in the JS engine. -/
def matchPreamble (l : List Char) : Option (List Char) :=
  matchHere l
  <|> (litCI ['c', 'h', 'o', 'o', 's', 'e'] l).map dropLine
  <|> (litCI ['s', 'e', 'l', 'e', 'c', 't', 'e', 'd'] l).map dropLine
  <|> (litCI ['r', 'e', 's', 'p', 'o', 'n', 's', 'e'] l).map (optChar ':')
  <|> (litCI ['o', 'u', 't', 'p', 'u', 't'] l).map (optChar ':')
  <|> (litCI ['f', 'i', 'n', 'a', 'l'] l).map (optChar ':')
  <|> matchOptionsColon l

/-- Model of the preamble replacement — strip one leading preamble clause
together with the trailing `\s*` of the pattern. -/
def stripPreamble (l : List Char) : List Char :=
  match matchPreamble l with
  | some rest => dropWs rest
  | none => l

/-- Global (`g` flag) replacement by the empty string: scan left to right,
deleting each match and continuing after it; on a mismatch keep one
character and re-try at the next position.  The fuel is the input length;
every successful match of the matchers used here consumes at least one
character, so the fuel never runs out. -/
def replaceAllAux (m : List Char → Option (List Char)) : Nat → List Char → List Char
  | _, [] => []
  | 0, l => l
  | fuel + 1, c :: cs =>
    match m (c :: cs) with
    | some rest => replaceAllAux m fuel rest
    | none => c :: replaceAllAux m fuel cs

/-- Model of `text.replace` by the empty string with the `g` flag. -/
def replaceAll (m : List Char → Option (List Char)) (l : List Char) : List Char :=
  replaceAllAux m l.length l

/-- Right-trim: drop the trailing run of whitespace (a character is kept
iff something non-whitespace survives after it or it is non-whitespace
itself). -/
def trimR : List Char → List Char
  | [] => []
  | c :: cs =>
    if (trimR cs).isEmpty then (if isWs c then [] else [c]) else c :: trimR cs

/-- Model of the JS string trim. -/
def trimList (l : List Char) : List Char := trimR (dropWs l)

/-- Model of the paragraph split — a run of two or more newlines separates
paragraphs (the separator run is consumed greedily).  The fuel is the input
length; each step consumes at least one character. -/
def splitParasAux : Nat → List Char → List Char → List (List Char)
  | 0, acc, l => [acc.reverse ++ l]
  | _ + 1, acc, [] => [acc.reverse]
  | fuel + 1, acc, c :: rest =>
    if c = '\n' ∧ rest.head? = some '\n' then
      acc.reverse :: splitParasAux fuel [] ((rest.drop 1).dropWhile (fun d => d = '\n'))
    else
      splitParasAux fuel (c :: acc) rest

/-- Model of the paragraph split on runs of two or more newlines. -/
def splitParas (l : List Char) : List (List Char) :=
  splitParasAux l.length [] l

/-- Worker of the line split on single newlines. -/
def splitLinesAux (acc : List Char) : List Char → List (List Char)
  | [] => [acc.reverse]
  | c :: rest =>
    if c = '\n' then acc.reverse :: splitLinesAux [] rest
    else splitLinesAux (c :: acc) rest

/-- Model of the line split on single newlines. -/
def splitLines (l : List Char) : List (List Char) :=
  splitLinesAux [] l

/-- Test for `/^(\*|-|\d+\.)\s/` (`TextEditor.tsx:48`). -/
def bulletTest (l : List Char) : Bool :=
  match l with
  | [] => false
  | c :: rest =>
    if c = '*' || c = '-' then
      match rest with
      | d :: _ => isWs d
      | [] => false
    else
      match plusDigits l with
      | some r =>
        match lit '.' r with
        | some r2 =>
          match r2 with
          | d :: _ => isWs d
          | [] => false
        | none => false
      | none => false

/-- Test for `/^\s*Option\s*\d+/i` (`TextEditor.tsx:48`). -/
def optionResidue (l : List Char) : Bool :=
  match litCI optionWord (dropWs l) with
  | some r => (plusDigits (dropWs r)).isSome
  | none => false

/-- The quote-stripping replacement of `TextEditor.tsx:55` (a global regex
whose two alternatives match a leading or a trailing run of double quotes,
apostrophes, or backquotes): remove the maximal leading and trailing runs of
quote characters (when the whole string is quotes, the leading run takes
everything). -/
def stripQuotesEnds (l : List Char) : List Char :=
  let l1 := l.dropWhile isQuoteCh
  (l1.reverse.dropWhile isQuoteCh).reverse

/-- Model of the leading-bullet replacement of `TextEditor.tsx:56`. -/
def stripLeadBullet (l : List Char) : List Char :=
  match l with
  | c :: rest => if c = '*' then dropWs rest else l
  | [] => l

/-- Head match for `\d+\.` followed by greedy `\s*`. -/
def matchOrdinal (l : List Char) : Option (List Char) := do
  let r ← plusDigits l
  let r2 ← lit '.' r
  pure (dropWs r2)

/-- Model of the leading-ordinal replacement of `TextEditor.tsx:57`. -/
def stripLeadOrdinal (l : List Char) : List Char :=
  match matchOrdinal l with
  | some r => r
  | none => l

/-- Paragraph-selection stage (`TextEditor.tsx:34-40`): split on blank-line
boundaries, trim, discard empties, and take the first paragraph if one
exists, otherwise leave the text unchanged. -/
def firstParagraph (l : List Char) : List Char :=
  match ((splitParas l).map trimList).filter (fun p => !p.isEmpty) with
  | [] => l
  | p :: _ => p

/-- Line-selection stage (`TextEditor.tsx:42-52`): split on newlines, trim,
discard empties, take the first line that is neither a bullet/numbered-list
item nor an "Option N" residue, else the first line, else the empty
string. -/
def firstCleanLine (l : List Char) : List Char :=
  let lines := ((splitLines l).map trimList).filter (fun p => !p.isEmpty)
  match lines.find? (fun p => !bulletTest p && !optionResidue p) with
  | some p => p
  | none => lines.headD []

/-- Model of `normalizeResponse` (`TextEditor.tsx:22-59`) over character lists: strip
option labels (bold then plain), strip one leading preamble, select the
first non-empty paragraph, select the first clean line, strip surrounding
quotes, a leading bullet marker and a leading ordinal marker, and trim. -/
def normalizeList (raw : List Char) : List Char :=
  trimList (stripLeadOrdinal (stripLeadBullet (stripQuotesEnds
    (firstCleanLine (firstParagraph (stripPreamble
      (replaceAll matchOptPlain (replaceAll matchOptBold raw))))))))

/-- Model of `normalizeResponse` on `String` (the `raw || ""` guard of the source is
the identity on strings). -/
def normalizeResponse (raw : String) : String :=
  ⟨normalizeList raw.data⟩

/-- Model of the JS string trim on `String`. -/
def jsTrim (s : String) : String :=
  ⟨trimList s.data⟩

/-- JS truthiness of a string: `!!s`. -/
def truthy (s : String) : Bool :=
  decide (s ≠ "")

/-- A JSON value occurring in the outbound payloads: a string or an array
of strings. -/
inductive JsonVal where
  | str (s : String)
  | arr (els : List String)
  deriving DecidableEq

/-- An outbound JSON object, as the ordered key/value list produced by
`JSON.stringify` (properties assigned `undefined` are omitted). -/
abbrev Payload := List (String × JsonVal)

/-! ### Five-type LinkedIn page (`src/pages/Index.tsx`, five-type variant) -/

/-- Tag type `PostType` of the five-type `Index` page. -/
inductive LI5Type where
  | text | article | articleImage | image | video
  deriving DecidableEq

/-- The string tag of each five-type `PostType` value. -/
def li5Tag : LI5Type → String
  | .text => "text"
  | .article => "article"
  | .articleImage => "article-image"
  | .image => "image"
  | .video => "video"

/-- Composition state of the five-type `Index` page. -/
structure LI5State where
  postType : LI5Type
  caption : String
  imageUrl : String
  videoUrl : String
  deriving DecidableEq

/-- Initial/default state of the five-type page. -/
def li5Default : LI5State := ⟨.text, "", "", ""⟩

/-- The only content validation `handleSubmit` performs in the five-type
variant: `if (!caption.trim()) return` — the caption must be non-empty
after trimming, for every post type. -/
def li5Validate (s : LI5State) : Bool :=
  truthy (jsTrim s.caption)

/-- Payload of the five-type `handleSubmit`: `image_url` and `video_url`
are written as `imageUrl || undefined` / `videoUrl || undefined`, so after
`JSON.stringify` the key is present exactly when the current field value is
non-empty — regardless of `postType`. -/
def li5Payload (s : LI5State) (timestamp : String) : Payload :=
  [("post_type", JsonVal.str (li5Tag s.postType)), ("text", JsonVal.str s.caption)]
  ++ (if s.imageUrl ≠ "" then [("image_url", JsonVal.str s.imageUrl)] else [])
  ++ (if s.videoUrl ≠ "" then [("video_url", JsonVal.str s.videoUrl)] else [])
  ++ [("timestamp", JsonVal.str timestamp)]

/-- The five-type `handleSubmit` flow: missing webhook URL or failed
validation dispatch nothing and leave the state alone; otherwise exactly one
request with `li5Payload` is dispatched; `httpOk` is `response.ok`
(a transport error takes the same `catch` path as `httpOk = false`).  On a
2xx response the form is reset to `li5Default`, otherwise the state is
unchanged.  Returns the dispatched payload (if any) and the final state. -/
def li5HandleSubmit (webhookUrl : Option String) (s : LI5State) (timestamp : String)
    (httpOk : Bool) : Option Payload × LI5State :=
  match webhookUrl with
  | none => (none, s)
  | some _ =>
    if li5Validate s then
      (some (li5Payload s timestamp), if httpOk then li5Default else s)
    else
      (none, s)

/-! ### Three-type LinkedIn page (`src/pages/Index.tsx`, three-type variant) -/

/-- Tag type `PostType` of the three-type `Index` page. -/
inductive LI3Type where
  | text | article | image
  deriving DecidableEq

/-- The string tag of each three-type `PostType` value. -/
def li3Tag : LI3Type → String
  | .text => "text"
  | .article => "article"
  | .image => "image"

/-- Composition state of the three-type `Index` page. -/
structure LI3State where
  postType : LI3Type
  caption : String
  imageUrl : String
  articleUrl : String
  deriving DecidableEq

/-- Initial/default state of the three-type page. -/
def li3Default : LI3State := ⟨.text, "", "", ""⟩

/-- Content validation of the three-type `handleSubmit`: non-empty trimmed
caption always; additionally a non-empty trimmed `imageUrl` for `image`
posts and a non-empty trimmed `articleUrl` for `article` posts. -/
def li3Validate (s : LI3State) : Bool :=
  truthy (jsTrim s.caption)
  && !(decide (s.postType = .image) && !truthy (jsTrim s.imageUrl))
  && !(decide (s.postType = .article) && !truthy (jsTrim s.articleUrl))

/-- Payload of the three-type `handleSubmit`: base keys plus `image_url`
only for `image` posts and `article_url` only for `article` posts. -/
def li3Payload (s : LI3State) : Payload :=
  [("node_type", JsonVal.str "linkedin"), ("post_type", JsonVal.str (li3Tag s.postType)),
   ("text", JsonVal.str s.caption)]
  ++ (if s.postType = .image then [("image_url", JsonVal.str s.imageUrl)] else [])
  ++ (if s.postType = .article then [("article_url", JsonVal.str s.articleUrl)] else [])

/-- The three-type `handleSubmit` flow, analogous to `li5HandleSubmit`. -/
def li3HandleSubmit (webhookUrl : Option String) (s : LI3State)
    (httpOk : Bool) : Option Payload × LI3State :=
  match webhookUrl with
  | none => (none, s)
  | some _ =>
    if li3Validate s then
      (some (li3Payload s), if httpOk then li3Default else s)
    else
      (none, s)

/-! ### Instagram form (`src/components/InstagramForm.tsx`) -/

/-- Tag type `IGPostType` (`InstagramForm.tsx:11`). -/
inductive IGPostType where
  | image | story_image | story_video | reel | carousel
  deriving DecidableEq

/-- The string tag of each `IGPostType` value. -/
def igTag : IGPostType → String
  | .image => "image"
  | .story_image => "story_image"
  | .story_video => "story_video"
  | .reel => "reel"
  | .carousel => "carousel"

/-- Composition state of the Instagram form. -/
structure IGState where
  postType : IGPostType
  caption : String
  imageUrl : String
  coverImageUrl : String
  videoUrl : String
  carouselUrls : List String
  deriving DecidableEq

/-- Initial/default state of the Instagram form. -/
def igDefault : IGState := ⟨.image, "", "", "", "", []⟩

/-- Model of `canSubmit` (`InstagramForm.tsx:39-54`): `!!imageUrl`/`!!videoUrl` test
plain non-emptiness, `!!caption.trim()` tests non-emptiness after trimming,
and a carousel additionally needs at least two image URLs. -/
def igCanSubmit (s : IGState) : Bool :=
  match s.postType with
  | .image => truthy s.imageUrl && truthy (jsTrim s.caption)
  | .story_image => truthy s.imageUrl
  | .story_video => truthy s.videoUrl
  | .reel => truthy s.videoUrl && truthy (jsTrim s.caption)
  | .carousel => decide (2 ≤ s.carouselUrls.length) && truthy (jsTrim s.caption)

/-- Payload of the Instagram `handleSubmit` (`InstagramForm.tsx:161-185`).
The `text` key is written under a condition that covers all five post
types; `payload.text = caption || ""` equals the caption itself.
`cover_image_url` is written as `coverImageUrl || undefined` for reels, so
after `JSON.stringify` it is present exactly when `coverImageUrl` is
non-empty. -/
def igPayload (s : IGState) (businessId : String) : Payload :=
  [("node_type", JsonVal.str "instagram"), ("node", JsonVal.str businessId),
   ("post_type", JsonVal.str (igTag s.postType))]
  ++ (if s.postType ∈ [IGPostType.image, .reel, .carousel]
        ∨ s.postType ∈ [IGPostType.story_image, .story_video] then
        [("text", JsonVal.str s.caption)] else [])
  ++ (if s.postType = .image ∨ s.postType = .story_image then
        [("image_url", JsonVal.str s.imageUrl)] else [])
  ++ (if s.postType = .story_video ∨ s.postType = .reel then
        [("video_url", JsonVal.str s.videoUrl)] else [])
  ++ (if s.postType = .reel ∧ s.coverImageUrl ≠ "" then
        [("cover_image_url", JsonVal.str s.coverImageUrl)] else [])
  ++ (if s.postType = .carousel then
        [("image_urls", JsonVal.arr s.carouselUrls)] else [])

/-- The Instagram `handleSubmit` flow: missing webhook URL, missing business
id, or `canSubmit = false` dispatch nothing and leave the state alone;
otherwise one request with `igPayload` is dispatched; on a 2xx response the
form is reset to `igDefault`, otherwise the state is unchanged. -/
def igHandleSubmit (webhookUrl businessId : Option String) (s : IGState)
    (httpOk : Bool) : Option Payload × IGState :=
  match webhookUrl, businessId with
  | none, _ => (none, s)
  | some _, none => (none, s)
  | some _, some bid =>
    if igCanSubmit s then
      (some (igPayload s bid), if httpOk then igDefault else s)
    else
      (none, s)

/-! ### Registry table of the specification (§4.1/§4.3)

The repository has no explicit registry; these key tables transcribe the
required/optional table of the specification, for comparison with the
payload builders above. -/

/-- Payload keys the specification registry table allows for each Instagram
post type: the base discriminator keys plus the per-type field keys. -/
def igRegistryKeys : IGPostType → List String
  | .image => ["node_type", "node", "post_type", "text", "image_url"]
  | .story_image => ["node_type", "node", "post_type", "text", "image_url"]
  | .story_video => ["node_type", "node", "post_type", "text", "video_url"]
  | .reel => ["node_type", "node", "post_type", "text", "video_url", "cover_image_url"]
  | .carousel => ["node_type", "node", "post_type", "text", "image_urls"]

/-- Payload keys the specification registry table allows for each
three-type LinkedIn post type. -/
def li3RegistryKeys : LI3Type → List String
  | .text => ["node_type", "post_type", "text"]
  | .article => ["node_type", "post_type", "text", "article_url"]
  | .image => ["node_type", "post_type", "text", "image_url"]

/-- Payload keys the specification registry table allows for each five-type
LinkedIn post type (this variant emits no `node_type`; `timestamp` is not a
state field and is ignored by the table). -/
def li5RegistryKeys : LI5Type → List String
  | .text => ["post_type", "text"]
  | .article => ["post_type", "text", "article_url"]
  | .articleImage => ["post_type", "text", "image_url"]
  | .image => ["post_type", "text", "image_url"]
  | .video => ["post_type", "text", "video_url"]

/-! ### AI caption generation (`TextEditor.tsx:61-158`) -/

/-- Result of `callOpenRouter`: `null` when the API key is missing or the
request fails, otherwise the normalized model text. -/
def callOpenRouterResult (apiKey : Option String) (httpOk : Bool)
    (content : String) : Option String :=
  match apiKey with
  | none => none
  | some _ => if httpOk then some (normalizeResponse content) else none

/-- Model of the `handleRewrite` caption update (`TextEditor.tsx:117-141`): refuse on a
blank current caption; otherwise overwrite the caption only when the call
produced a truthy (non-null, non-empty) result. -/
def handleRewrite (current : String) (apiKey : Option String) (httpOk : Bool)
    (content : String) : String :=
  if truthy (jsTrim current) then
    match callOpenRouterResult apiKey httpOk content with
    | some r => if truthy r then r else current
    | none => current
  else
    current

/-- Model of the `handleGenerate` caption update (`TextEditor.tsx:143-158`): overwrite
the caption only when the call produced a truthy result. -/
def handleGenerate (current : String) (apiKey : Option String) (httpOk : Bool)
    (content : String) : String :=
  match callOpenRouterResult apiKey httpOk content with
  | some r => if truthy r then r else current
  | none => current

/-! ### Normalized form -/

/-- No suffix of `l` is matched by the head matcher `m` — i.e. the global
regex replacement driven by `m` finds nothing to remove. -/
def noSubMatch (m : List Char → Option (List Char)) (l : List Char) : Bool :=
  l.tails.all (fun t => (m t).isNone)

/-- An already-normalized string in the sense of the specification: a single
trimmed line, with no option label anywhere, no leading preamble clause, no
leading or trailing quote character, no leading bullet marker, and no
leading ordinal-list marker. -/
def normalizedForm (l : List Char) : Bool :=
  l.all (fun c => decide (c ≠ '\n'))
  && decide (trimList l = l)
  && noSubMatch matchOptBold l
  && noSubMatch matchOptPlain l
  && (matchPreamble l).isNone
  && (match l.head? with
      | some c => !isQuoteCh c && decide (c ≠ '*')
      | none => true)
  && (match l.getLast? with
      | some c => !isQuoteCh c
      | none => true)
  && (matchOrdinal l).isNone

/-! ## Claim C1: payload keys versus the registry table -/

/-- C1 counterexample: in the five-type LinkedIn variant a stale `imageUrl`
surfaces as an `image_url` key even though the current post type is `text`,
for which the registry table allows no image field. -/
theorem c1_stale_field_leaks :
    "image_url" ∈ (li5Payload ⟨LI5Type.text, "hi", "https://img/stale.png", ""⟩
        "2026-01-01T00:00:00.000Z").map Prod.fst
    ∧ "image_url" ∉ li5RegistryKeys LI5Type.text := by
  decide

/-- C1 amended: in the Instagram form and in the three-type LinkedIn
variant every payload key is one the registry table marks
required-or-optional for the current post type (the five-type variant
instead emits `image_url`/`video_url` whenever the field value is
currently non-empty). -/
theorem c1_payload_keys_registry :
    (∀ (s : IGState) (bid : String),
        ((igPayload s bid).map Prod.fst).all
          (fun k => decide (k ∈ igRegistryKeys s.postType)) = true)
    ∧ (∀ s : LI3State,
        ((li3Payload s).map Prod.fst).all
          (fun k => decide (k ∈ li3RegistryKeys s.postType)) = true) := by
  constructor
  · intro s bid
    obtain ⟨pt, c, iu, cu, vu, cl⟩ := s
    cases pt <;> simp [igPayload, igRegistryKeys]
  · intro s
    obtain ⟨pt, c, iu, au⟩ := s
    cases pt <;> simp [li3Payload, li3RegistryKeys]

/-! ## Claim C2: LinkedIn submission validation -/

/-- C2 counterexample: the five-type variant validates an `image` post with
an empty `imageUrl` (the table marks `imageUrl` required for `image`) and
dispatches it. -/
theorem c2_image_without_url_dispatches :
    li5Validate ⟨LI5Type.image, "my caption", "", ""⟩ = true
    ∧ (li5HandleSubmit (some "https://hook") ⟨LI5Type.image, "my caption", "", ""⟩
        "2026-01-01T00:00:00.000Z" true).1.isSome = true := by
  decide

/-- C2 amended: the five-type variant requires only a non-empty trimmed
caption, for every post type; the three-type variant follows the table for
its three types (caption always; `articleUrl` for `article`; `imageUrl` for
`image`); in both, a failed validation (or missing webhook URL) dispatches
nothing. -/
theorem c2_validation :
    (∀ (s : LI5State) (w ts : String) (ok : Bool),
        (li5HandleSubmit (some w) s ts ok).1.isSome = true
          ↔ jsTrim s.caption ≠ "")
    ∧ (∀ (s : LI3State) (w : String) (ok : Bool),
        (li3HandleSubmit (some w) s ok).1.isSome = true
          ↔ jsTrim s.caption ≠ ""
            ∧ (s.postType = LI3Type.article → jsTrim s.articleUrl ≠ "")
            ∧ (s.postType = LI3Type.image → jsTrim s.imageUrl ≠ ""))
    ∧ (∀ (s : LI5State) (ts : String) (ok : Bool),
        (li5HandleSubmit none s ts ok).1 = none)
    ∧ (∀ (s : LI3State) (ok : Bool), (li3HandleSubmit none s ok).1 = none) := by
  refine ⟨?_, ?_, ?_, ?_⟩
  · intro s w ts ok
    simp only [li5HandleSubmit, li5Validate, truthy]
    split <;> simp_all
  · intro s w ok
    obtain ⟨pt, c, iu, au⟩ := s
    simp only [li3HandleSubmit, li3Validate, truthy]
    cases pt <;> split <;> simp_all
  · intro s ts ok; rfl
  · intro s ok; rfl

/-- C2 witness: the amended statement evaluated at a concrete three-type
`article` state with both required fields present. -/
theorem c2_validation_witness :
    (li3HandleSubmit (some "https://hook")
      ⟨LI3Type.article, "cap", "", "https://blog/post"⟩ true).1.isSome = true :=
  (c2_validation.2.1 ⟨LI3Type.article, "cap", "", "https://blog/post"⟩
      "https://hook" true).mpr
    ⟨by decide, fun _ => by decide, fun h => by cases h⟩

/-! ## Claim C3: Instagram `canSubmit` -/

/-- C3 counterexample: a whitespace-only `imageUrl` is empty after trimming,
yet `canSubmit` accepts the `image` post — the URL fields are tested for
plain non-emptiness, not trimmed non-emptiness. -/
theorem c3_untrimmed_image_url :
    igCanSubmit ⟨IGPostType.image, "caption", " ", "", "", []⟩ = true
    ∧ jsTrim " " = "" := by
  decide

/-- C3 amended: `canSubmit` holds exactly per the table, with the caption
tested after trimming but `imageUrl`/`videoUrl` tested for plain
non-emptiness, and a carousel needing at least two image URLs. -/
theorem c3_canSubmit_iff (s : IGState) :
    igCanSubmit s = true ↔
      ((s.postType = IGPostType.image ∧ s.imageUrl ≠ "" ∧ jsTrim s.caption ≠ "")
       ∨ (s.postType = IGPostType.story_image ∧ s.imageUrl ≠ "")
       ∨ (s.postType = IGPostType.story_video ∧ s.videoUrl ≠ "")
       ∨ (s.postType = IGPostType.reel ∧ s.videoUrl ≠ "" ∧ jsTrim s.caption ≠ "")
       ∨ (s.postType = IGPostType.carousel ∧ 2 ≤ s.carouselUrls.length
            ∧ jsTrim s.caption ≠ "")) := by
  obtain ⟨pt, c, iu, cu, vu, cl⟩ := s
  cases pt <;> simp [igCanSubmit, truthy]

/-- C3 witness: a concrete two-image carousel with a caption is accepted,
by the amended theorem. -/
theorem c3_canSubmit_iff_witness :
    igCanSubmit ⟨IGPostType.carousel, "cap", "", "", "", ["u1", "u2"]⟩ = true :=
  (c3_canSubmit_iff ⟨IGPostType.carousel, "cap", "", "", "", ["u1", "u2"]⟩).mpr
    (Or.inr (Or.inr (Or.inr (Or.inr ⟨rfl, by decide, by decide⟩))))

/-! ## Claim C5: the "Here it is" example -/

/-- C5: the code does not return `Ship fast, learn faster.` on the
specification example — the preamble alternative `here\s+(?:it|is)`
consumes only `Here it ` and the leftover `is: ` then also keeps the
wrapping quote stripping from seeing a leading quote. -/
theorem c5_here_it_is_behavior :
    normalizeResponse "Here it is: \"Ship fast, learn faster.\""
      = "is: \"Ship fast, learn faster." := by
  decide

/-! ## Claims C6/C7: state after a successful or failed dispatch -/

/-- C6: whenever a dispatch happens and the response is 2xx, the final
state of each form is its default state — all text and URL fields empty
and the post type back to its default. -/
theorem c6_reset_on_success :
    (∀ (w : Option String) (s : LI5State) (ts : String),
        (li5HandleSubmit w s ts true).1.isSome = true →
        (li5HandleSubmit w s ts true).2 = li5Default)
    ∧ (∀ (w b : Option String) (s : IGState),
        (igHandleSubmit w b s true).1.isSome = true →
        (igHandleSubmit w b s true).2 = igDefault)
    ∧ (∀ (w : Option String) (s : LI3State),
        (li3HandleSubmit w s true).1.isSome = true →
        (li3HandleSubmit w s true).2 = li3Default) := by
  refine ⟨?_, ?_, ?_⟩
  · intro w s ts h
    cases w <;> simp only [li5HandleSubmit] at h ⊢
    · cases h
    · split at h <;> simp_all
  · intro w b s h
    cases w <;> cases b <;> simp only [igHandleSubmit] at h ⊢ <;>
      first
      | cases h
      | split at h <;> simp_all
  · intro w s h
    cases w <;> simp only [li3HandleSubmit] at h ⊢
    · cases h
    · split at h <;> simp_all

/-- C6 witness: concrete successful submissions of each form end in the
default state. -/
theorem c6_reset_on_success_witness :
    (li5HandleSubmit (some "https://hook") ⟨LI5Type.text, "hello", "", ""⟩
        "2026-01-01T00:00:00.000Z" true).2 = li5Default
    ∧ (igHandleSubmit (some "https://hook") (some "biz-42")
        ⟨IGPostType.image, "cap", "https://img/a.png", "", "", []⟩ true).2 = igDefault
    ∧ (li3HandleSubmit (some "https://hook") ⟨LI3Type.text, "cap", "", ""⟩
        true).2 = li3Default :=
  ⟨c6_reset_on_success.1 (some "https://hook") ⟨LI5Type.text, "hello", "", ""⟩
      "2026-01-01T00:00:00.000Z" (by decide),
   c6_reset_on_success.2.1 (some "https://hook") (some "biz-42")
      ⟨IGPostType.image, "cap", "https://img/a.png", "", "", []⟩ (by decide),
   c6_reset_on_success.2.2 (some "https://hook") ⟨LI3Type.text, "cap", "", ""⟩
      (by decide)⟩

/-- C7: when the request fails (non-2xx response or transport error — both
take the `catch` path), every form leaves its state exactly as it was, so
the user can resubmit. -/
theorem c7_state_kept_on_failure :
    (∀ (w : Option String) (s : LI5State) (ts : String),
        (li5HandleSubmit w s ts false).2 = s)
    ∧ (∀ (w b : Option String) (s : IGState), (igHandleSubmit w b s false).2 = s)
    ∧ (∀ (w : Option String) (s : LI3State), (li3HandleSubmit w s false).2 = s) := by
  refine ⟨?_, ?_, ?_⟩
  · intro w s ts
    cases w
    · rfl
    · simp only [li5HandleSubmit]
      split <;> rfl
  · intro w b s
    cases w
    · rfl
    · cases b
      · rfl
      · simp only [igHandleSubmit]
        split <;> rfl
  · intro w s
    cases w
    · rfl
    · simp only [li3HandleSubmit]
      split <;> rfl

/-! ## Claim C8: degenerate normalization keeps the caption -/

/-- C8: when the model text normalizes to the empty string, neither
rewriting nor generating overwrites the existing caption. -/
theorem c8_empty_normalization_keeps_caption :
    ∀ (current content : String) (apiKey : Option String) (httpOk : Bool),
      normalizeResponse content = "" →
      handleRewrite current apiKey httpOk content = current
      ∧ handleGenerate current apiKey httpOk content = current := by
  intro current content apiKey httpOk h
  have hc : callOpenRouterResult apiKey httpOk content = none
      ∨ callOpenRouterResult apiKey httpOk content = some "" := by
    cases apiKey <;> cases httpOk <;> simp [callOpenRouterResult, h]
  rcases hc with hc | hc <;>
    exact ⟨by simp [handleRewrite, hc, truthy], by simp [handleGenerate, hc, truthy]⟩

/-- C8 witness: the empty model output normalizes to the empty string and
leaves a concrete caption untouched. -/
theorem c8_empty_normalization_witness :
    handleRewrite "keep me" (some "key") true "" = "keep me"
    ∧ handleGenerate "keep me" (some "key") true "" = "keep me" :=
  c8_empty_normalization_keeps_caption "keep me" "" (some "key") true (by decide)

/-! ## Claim C10: the optional reel cover image key -/

/-- C10: in a reel payload the `cover_image_url` key is present exactly
when `coverImageUrl` is a non-empty string. -/
theorem c10_cover_image_key_iff :
    ∀ (s : IGState) (bid : String), s.postType = IGPostType.reel →
      ("cover_image_url" ∈ (igPayload s bid).map Prod.fst ↔ s.coverImageUrl ≠ "") := by
  intro s bid h
  obtain ⟨pt, c, iu, cu, vu, cl⟩ := s
  cases h
  simp [igPayload]

/-- C10 witness: a concrete reel with a cover image carries the key, per
the theorem applied at that state. -/
theorem c10_cover_image_key_witness :
    "cover_image_url" ∈ (igPayload
        ⟨IGPostType.reel, "c", "", "https://img/cover.png", "https://v/r.mp4", []⟩
        "biz").map Prod.fst
      ↔ ("https://img/cover.png" : String) ≠ "" :=
  c10_cover_image_key_iff
    ⟨IGPostType.reel, "c", "", "https://img/cover.png", "https://v/r.mp4", []⟩
    "biz" rfl

/-! ## Normalizer support lemmas -/

theorem replaceAllAux_eq_self (m : List Char → Option (List Char)) :
    ∀ (fuel : Nat) (l : List Char), (∀ t, t <:+ l → m t = none) →
      replaceAllAux m fuel l = l := by
  intro fuel
  induction fuel with
  | zero => intro l _; cases l <;> rfl
  | succ f ih =>
    intro l h
    cases l with
    | nil => rfl
    | cons c cs =>
      have hm : m (c :: cs) = none := h (c :: cs) (List.suffix_refl _)
      simp only [replaceAllAux, hm]
      exact congrArg (c :: ·) (ih cs fun t ht => h t (ht.trans (List.suffix_cons c cs)))

theorem noSubMatch_spec {m : List Char → Option (List Char)} {l : List Char}
    (h : noSubMatch m l = true) : ∀ t, t <:+ l → m t = none := by
  intro t ht
  have := List.all_eq_true.mp h t ((List.mem_tails t l).mpr ht)
  simpa using this

theorem replaceAll_eq_self {m : List Char → Option (List Char)} {l : List Char}
    (h : noSubMatch m l = true) : replaceAll m l = l :=
  replaceAllAux_eq_self m l.length l (noSubMatch_spec h)

theorem stripPreamble_eq_self {l : List Char} (h : (matchPreamble l).isNone = true) :
    stripPreamble l = l := by
  simp only [stripPreamble]
  rw [Option.isNone_iff_eq_none.mp h]

theorem splitParasAux_no_newline :
    ∀ (fuel : Nat) (acc l : List Char), (∀ c ∈ l, c ≠ '\n') →
      splitParasAux fuel acc l = [acc.reverse ++ l] := by
  intro fuel
  induction fuel with
  | zero => intro acc l _; rfl
  | succ f ih =>
    intro acc l h
    cases l with
    | nil => simp [splitParasAux]
    | cons c rest =>
      have hc : c ≠ '\n' := h c (List.mem_cons_self c rest)
      simp only [splitParasAux]
      rw [if_neg (by exact fun hand => hc hand.1)]
      rw [ih (c :: acc) rest fun d hd => h d (List.mem_cons_of_mem c hd)]
      simp

theorem splitParas_no_newline {l : List Char} (h : ∀ c ∈ l, c ≠ '\n') :
    splitParas l = [l] := by
  simpa using splitParasAux_no_newline l.length [] l h

theorem splitLinesAux_no_newline :
    ∀ (l acc : List Char), (∀ c ∈ l, c ≠ '\n') →
      splitLinesAux acc l = [acc.reverse ++ l] := by
  intro l
  induction l with
  | nil => intro acc _; simp [splitLinesAux]
  | cons c rest ih =>
    intro acc h
    have hc : c ≠ '\n' := h c (List.mem_cons_self c rest)
    simp only [splitLinesAux]
    rw [if_neg hc, ih (c :: acc) fun d hd => h d (List.mem_cons_of_mem c hd)]
    simp

theorem splitLines_no_newline {l : List Char} (h : ∀ c ∈ l, c ≠ '\n') :
    splitLines l = [l] := by
  simpa using splitLinesAux_no_newline l [] h

theorem firstParagraph_eq_self {l : List Char} (hn : ∀ c ∈ l, c ≠ '\n')
    (ht : trimList l = l) : firstParagraph l = l := by
  simp only [firstParagraph, splitParas_no_newline hn, List.map_cons, List.map_nil, ht]
  cases l with
  | nil => simp
  | cons c cs => simp

theorem firstCleanLine_eq_self {l : List Char} (hn : ∀ c ∈ l, c ≠ '\n')
    (ht : trimList l = l) : firstCleanLine l = l := by
  simp only [firstCleanLine, splitLines_no_newline hn, List.map_cons, List.map_nil, ht]
  cases l with
  | nil => simp
  | cons c cs =>
    simp only [List.isEmpty_cons, Bool.not_false, List.filter_cons_of_pos, List.filter_nil]
    cases hp : (!bulletTest (c :: cs) && !optionResidue (c :: cs)) <;>
      simp [List.find?, hp]

theorem stripQuotesEnds_eq_self {l : List Char}
    (hh : (match l.head? with | some c => !isQuoteCh c | none => true) = true)
    (hl : (match l.getLast? with | some c => !isQuoteCh c | none => true) = true) :
    stripQuotesEnds l = l := by
  have e1 : l.dropWhile isQuoteCh = l := by
    cases l with
    | nil => rfl
    | cons c cs =>
      simp only [List.head?_cons] at hh
      have hq : isQuoteCh c = false := by simpa using hh
      simp [List.dropWhile_cons, hq]
  have e2 : l.reverse.dropWhile isQuoteCh = l.reverse := by
    cases hr : l.reverse with
    | nil => rfl
    | cons c cs =>
      have hg : l.getLast? = some c := by
        rw [← List.head?_reverse, hr, List.head?_cons]
      rw [hg] at hl
      have hq : isQuoteCh c = false := by simpa using hl
      simp [List.dropWhile_cons, hq]
  simp only [stripQuotesEnds, e1, e2, List.reverse_reverse]

theorem stripLeadBullet_eq_self {l : List Char}
    (h : (match l.head? with | some c => decide (c ≠ '*') | none => true) = true) :
    stripLeadBullet l = l := by
  cases l with
  | nil => rfl
  | cons c cs =>
    simp only [List.head?_cons, decide_eq_true_eq] at h
    simp [stripLeadBullet, h]

theorem stripLeadOrdinal_eq_self {l : List Char} (h : (matchOrdinal l).isNone = true) :
    stripLeadOrdinal l = l := by
  simp only [stripLeadOrdinal]
  rw [Option.isNone_iff_eq_none.mp h]

/-! ## Claim C4: idempotence of the normalizer -/

/-- C4 counterexample: `normalize` is not idempotent.  On the input
consisting of a bullet marker followed by a double-quoted word, stripping
the bullet marker exposes a leading quote that only a second application
removes. -/
theorem c4_not_idempotent :
    normalizeResponse (normalizeResponse "* \"hello\"")
      ≠ normalizeResponse "* \"hello\"" := by
  decide

/-- C4 amended: the general idempotence law fails (see the counterexample);
what holds is the fixed-point half of the claim — normalizing an
already-normalized string (single trimmed line, no option labels, no
leading preamble, no wrapping quote characters, no leading bullet or
ordinal marker) returns it unchanged. -/
theorem c4_normalized_fixed (s : String) (h : normalizedForm s.data = true) :
    normalizeResponse s = s := by
  obtain ⟨l⟩ := s
  simp only [normalizedForm, Bool.and_eq_true] at h
  obtain ⟨⟨⟨⟨⟨⟨⟨h1, h2⟩, h3⟩, h4⟩, h5⟩, h6⟩, h7⟩, h8⟩ := h
  have hn : ∀ c ∈ l, c ≠ '\n' := fun c hc => by
    simpa using List.all_eq_true.mp h1 c hc
  have ht : trimList l = l := of_decide_eq_true h2
  have hhq : (match l.head? with | some c => !isQuoteCh c | none => true) = true := by
    cases hh : l.head? with
    | none => rfl
    | some c =>
      rw [hh] at h6
      simp only [Bool.and_eq_true] at h6
      exact h6.1
  have hhs : (match l.head? with | some c => decide (c ≠ '*') | none => true) = true := by
    cases hh : l.head? with
    | none => rfl
    | some c =>
      rw [hh] at h6
      simp only [Bool.and_eq_true] at h6
      exact h6.2
  show String.mk (normalizeList l) = ⟨l⟩
  simp only [normalizeList]
  rw [replaceAll_eq_self h3, replaceAll_eq_self h4, stripPreamble_eq_self h5,
    firstParagraph_eq_self hn ht, firstCleanLine_eq_self hn ht,
    stripQuotesEnds_eq_self hhq h7, stripLeadBullet_eq_self hhs,
    stripLeadOrdinal_eq_self h8, ht]

/-- C4 witness: a concrete already-normalized string is a fixed point, by
the amended theorem. -/
theorem c4_normalized_fixed_witness :
    normalizeResponse "Ship fast, learn faster." = "Ship fast, learn faster." :=
  c4_normalized_fixed "Ship fast, learn faster." (by decide)

/-! ## Support lemmas for the shape of the normalizer output -/

theorem mem_of_mem_dropWhile {p : Char → Bool} {l : List Char} {a : Char}
    (h : a ∈ l.dropWhile p) : a ∈ l :=
  (List.dropWhile_suffix p).subset h

theorem mem_of_mem_trimR : ∀ {l : List Char} {a : Char}, a ∈ trimR l → a ∈ l := by
  intro l
  induction l with
  | nil => intro a h; exact absurd h (by simp [trimR])
  | cons c cs ih =>
    intro a h
    simp only [trimR] at h
    split at h
    · split at h
      · cases h
      · rcases List.mem_singleton.mp h with rfl
        exact List.mem_cons_self a cs
    · rcases List.mem_cons.mp h with rfl | h2
      · exact List.mem_cons_self a cs
      · exact List.mem_cons_of_mem c (ih h2)

theorem mem_of_mem_trimList {l : List Char} {a : Char} (h : a ∈ trimList l) : a ∈ l :=
  mem_of_mem_dropWhile (mem_of_mem_trimR h)

theorem lit_suffix {c : Char} {l r : List Char} (h : lit c l = some r) : r <:+ l := by
  cases l with
  | nil => cases h
  | cons d rest =>
    simp only [lit] at h
    by_cases hd : d = c
    · rw [if_pos hd] at h
      cases h
      exact List.suffix_cons _ _
    · rw [if_neg hd] at h
      cases h

theorem plusDigits_suffix {l r : List Char} (h : plusDigits l = some r) : r <:+ l := by
  cases l with
  | nil => cases h
  | cons c rest =>
    simp only [plusDigits] at h
    by_cases hd : isDigitCh c = true
    · rw [if_pos hd] at h
      cases h
      exact (List.dropWhile_suffix isDigitCh).trans (List.suffix_cons _ _)
    · rw [if_neg hd] at h
      cases h

theorem matchOrdinal_suffix {l r : List Char} (h : matchOrdinal l = some r) : r <:+ l := by
  simp only [matchOrdinal, Option.bind_eq_some, Option.pure_def, Option.some.injEq,
    bind, Option.bind_eq_some] at h
  obtain ⟨r1, h1, r2, h2, h3⟩ := h
  subst h3
  exact (List.dropWhile_suffix isWs).trans ((lit_suffix h2).trans (plusDigits_suffix h1))

theorem stripLeadOrdinal_subset (l : List Char) : stripLeadOrdinal l ⊆ l := by
  cases hm : matchOrdinal l with
  | none => simp [stripLeadOrdinal, hm]
  | some r =>
    simp only [stripLeadOrdinal, hm]
    exact (matchOrdinal_suffix hm).subset

theorem stripLeadBullet_subset (l : List Char) : stripLeadBullet l ⊆ l := by
  cases l with
  | nil => simp [stripLeadBullet]
  | cons c rest =>
    simp only [stripLeadBullet]
    split
    · exact fun a ha => List.mem_cons_of_mem c (mem_of_mem_dropWhile ha)
    · exact fun a ha => ha

theorem stripQuotesEnds_subset (l : List Char) : stripQuotesEnds l ⊆ l := by
  intro a ha
  simp only [stripQuotesEnds] at ha
  exact mem_of_mem_dropWhile (List.mem_reverse.mp (mem_of_mem_dropWhile (List.mem_reverse.mp ha)))

theorem splitLinesAux_no_nl_mem :
    ∀ (l acc p : List Char), p ∈ splitLinesAux acc l → (∀ c ∈ acc, c ≠ '\n') →
      ∀ c ∈ p, c ≠ '\n' := by
  intro l
  induction l with
  | nil =>
    intro acc p hp hacc c hc
    rcases List.mem_singleton.mp hp with rfl
    exact hacc c (List.mem_reverse.mp hc)
  | cons d rest ih =>
    intro acc p hp hacc c hc
    simp only [splitLinesAux] at hp
    by_cases hd : d = '\n'
    · rw [if_pos hd] at hp
      rcases List.mem_cons.mp hp with rfl | h2
      · exact hacc c (List.mem_reverse.mp hc)
      · exact ih [] p h2 (by simp) c hc
    · rw [if_neg hd] at hp
      refine ih (d :: acc) p hp ?_ c hc
      intro x hx
      rcases List.mem_cons.mp hx with rfl | h2
      · exact hd
      · exact hacc x h2

theorem firstCleanLine_no_newline (l : List Char) :
    ∀ c ∈ firstCleanLine l, c ≠ '\n' := by
  have key : ∀ p, p ∈ ((splitLines l).map trimList).filter (fun q => !q.isEmpty) →
      ∀ x ∈ p, x ≠ '\n' := by
    intro p hp x hx
    have hp1 : p ∈ (splitLines l).map trimList := List.mem_of_mem_filter hp
    obtain ⟨q, hq, rfl⟩ := List.mem_map.mp hp1
    exact splitLinesAux_no_nl_mem l [] q hq (by simp) x (mem_of_mem_trimList hx)
  intro c hc
  simp only [firstCleanLine] at hc
  cases hf : (((splitLines l).map trimList).filter (fun q => !q.isEmpty)).find?
      (fun p => !bulletTest p && !optionResidue p) with
  | some p =>
    rw [hf] at hc
    exact key p (List.mem_of_find?_eq_some hf) c hc
  | none =>
    rw [hf] at hc
    cases hl : ((splitLines l).map trimList).filter (fun q => !q.isEmpty) with
    | nil => rw [hl] at hc; cases hc
    | cons a as =>
      rw [hl] at hc
      exact key a (hl ▸ List.mem_cons_self a as) c hc

theorem dropWs_idem (l : List Char) : dropWs (dropWs l) = dropWs l := by
  induction l with
  | nil => rfl
  | cons c cs ih =>
    by_cases hw : isWs c
    · simp only [dropWs, List.dropWhile_cons, hw, if_true]
      exact ih
    · simp only [dropWs, List.dropWhile_cons, hw]
      simp [hw]

theorem dropWs_length_le (l : List Char) : (dropWs l).length ≤ l.length :=
  (List.dropWhile_suffix isWs).length_le

theorem trimR_idem (l : List Char) : trimR (trimR l) = trimR l := by
  induction l with
  | nil => rfl
  | cons c cs ih =>
    by_cases he : (trimR cs).isEmpty = true
    · by_cases hw : isWs c = true
      · simp [trimR, he, hw]
      · simp [trimR, he, hw]
    · have h1 : trimR (c :: cs) = c :: trimR cs := by simp [trimR, he]
      have h2 : (trimR (trimR cs)).isEmpty = false := by
        rw [ih]
        simpa using he
      rw [h1]
      simp [trimR, ih, h2]
      intro h3
      exact absurd (by rw [h3]; rfl) he

theorem dropWs_trimR_of_head {l : List Char} (h : dropWs l = l) :
    dropWs (trimR l) = trimR l := by
  cases l with
  | nil => rfl
  | cons c cs =>
    have hw : isWs c = false := by
      by_contra hw
      rw [Bool.not_eq_false] at hw
      have hdw : dropWs cs = c :: cs := by
        simpa only [dropWs, List.dropWhile_cons, hw, if_true] using h
      have hlen := dropWs_length_le cs
      rw [hdw] at hlen
      simp at hlen
    by_cases he : (trimR cs).isEmpty = true
    · simp [trimR, he, hw, dropWs, List.dropWhile_cons]
    · simp [trimR, he, hw, dropWs, List.dropWhile_cons]

theorem trimList_idem (l : List Char) : trimList (trimList l) = trimList l := by
  have h1 : dropWs (trimR (dropWs l)) = trimR (dropWs l) :=
    dropWs_trimR_of_head (dropWs_idem l)
  rw [trimList, trimList, h1, trimR_idem]

theorem normalizeResponse_data (raw : String) :
    (normalizeResponse raw).data = normalizeList raw.data := by
  simp only [normalizeResponse]

/-! ## Claim C9: the normalizer output is one trimmed line -/

/-- C9: for every input the normalizer output contains no newline and
equals its own trim, and the empty input normalizes to the empty string. -/
theorem c9_output_single_trimmed_line :
    (∀ raw : String,
        (normalizeResponse raw).data.all (fun c => decide (c ≠ '\n')) = true
        ∧ jsTrim (normalizeResponse raw) = normalizeResponse raw)
    ∧ normalizeResponse "" = "" := by
  constructor
  · intro raw
    constructor
    · apply List.all_eq_true.mpr
      intro c hc
      apply decide_eq_true
      rw [normalizeResponse_data] at hc
      simp only [normalizeList] at hc
      have hc2 := mem_of_mem_trimList hc
      have hc3 := stripLeadOrdinal_subset _ hc2
      have hc4 := stripLeadBullet_subset _ hc3
      have hc5 := stripQuotesEnds_subset _ hc4
      exact firstCleanLine_no_newline _ c hc5
    · apply String.ext
      simp only [jsTrim, normalizeResponse_data, normalizeList]
      exact trimList_idem _
  · decide

end LinkedinZen
